import Mathlib

/-!
Verification of the SECURE-WIPE-PRO backend (src/wiping.py).

This file shallowly embeds the core of the backend: the AES-GCM container
codec (create_encrypted_container, add_file_to_container, extract_all), the
secure-erase primitive (secure_overwrite_and_delete), the certificate signer
(sign_certificate) and the destructive-job state machine (OSWipeJob.run).

Modelling conventions:
- Bytes are natural numbers; byte strings are lists of naturals.
- The cryptographic random source (Python secrets.token_bytes) is an explicit
  entropy stream with a cursor; token_bytes n returns the next n stream bytes
  and advances the cursor, exactly as consecutive draws from the source.
- AES-GCM is an external library; it is abstracted as a structure AEAD whose
  only assumed property is that decryption inverts encryption under the same
  key and nonce. RSA-PKCS1v15-SHA256 signing is likewise abstracted as a
  deterministic SignatureScheme whose verification accepts exactly the signed
  byte sequence (sound up to hash collisions).
- Filesystem effects (the container rewrite in add_file_to_container, the
  overwrite passes of secure_overwrite_and_delete) are embedded as explicit
  event traces transliterated from the corresponding Python statements, with
  a small semantics (runFileOps, runWipe) giving the resulting disk state.
- Python file names round-trip through UTF-8 encode/decode; names are kept
  as their byte lists.  The stored name of an uploaded file is the final
  path segment of its file name; records carry the stored name directly.
-/

/-! ## Entropy source (Python secrets.token_bytes) -/

/-- The cryptographic random source: an infinite byte stream plus a cursor.
Every draw returns fresh, never previously consumed positions. -/
structure Entropy where
  stream : Nat → Nat
  pos : Nat

/-- Model of secrets.token_bytes(n): the next n bytes of the source, and the
source advanced past them. -/
def token_bytes (n : Nat) (e : Entropy) : List Nat × Entropy :=
  ((List.range n).map fun i => e.stream (e.pos + i), ⟨e.stream, e.pos + n⟩)

/-- The 12-byte block of stream s starting at cursor c: the nonce value that
a token_bytes 12 draw at cursor position c yields. -/
def nonceAt (s : Nat → Nat) (c : Nat) : List Nat :=
  (List.range 12).map fun i => s (c + i)

/-! ## AES-GCM (cryptography.hazmat AESGCM), abstracted -/

/-- An authenticated-encryption scheme: encrypt key nonce plain gives the
ciphertext (including its tag); decrypt returns none on authentication
failure (InvalidTag) and is required to invert encryption. -/
structure AEAD where
  encrypt : List Nat → List Nat → List Nat → List Nat
  decrypt : List Nat → List Nat → List Nat → Option (List Nat)
  decrypt_encrypt : ∀ k n p, decrypt k n (encrypt k n p) = some p

/-- A trivial instance of AEAD, used to evaluate the codec on concrete
inputs (witnesses and counterexamples). -/
def idAEAD : AEAD where
  encrypt := fun _ _ p => p
  decrypt := fun _ _ c => some c
  decrypt_encrypt := fun _ _ _ => rfl

/-! ## Container codec (wiping.py lines 83-179) -/

/-- MAGIC = b"CRYPTOCNT1" (line 83), as bytes. -/
def MAGIC : List Nat := [67, 82, 89, 80, 84, 79, 67, 78, 84, 49]

/-- The on-disk container layout written by create_encrypted_container and
add_file_to_container (lines 109-113 and 134-138):
MAGIC, one byte holding len(nonce), the nonce, the ciphertext. -/
def containerBytes (nonce ct : List Nat) : List Nat :=
  MAGIC ++ [nonce.length] ++ nonce ++ ct

/-- The header parse shared by add_file_to_container, list_container and
extract_all (lines 120-126 etc.): read len(MAGIC) bytes and compare with
MAGIC (HTTPException "bad container" on mismatch, modelled none), read one
byte as the nonce length (Python ord raises at end of file, modelled none),
then split the rest into nonce and ciphertext.  Python f.read truncates at
end of file and List.take does the same. -/
def parseContainer (file : List Nat) : Option (List Nat × List Nat) :=
  if file.take MAGIC.length = MAGIC then
    match file.drop MAGIC.length with
    | [] => none
    | nl :: rest => some (rest.take nl, rest.drop nl)
  else none

/-- Python int.to_bytes(k, "big"): the k-byte big-endian encoding of v
(the value of v modulo 256 ^ k; to_bytes raises OverflowError above that,
checked by the caller in add_file_to_container). -/
def toBytesBE : Nat → Nat → List Nat
  | 0, _ => []
  | k + 1, v => toBytesBE k (v / 256) ++ [v % 256]

/-- Python int.from_bytes(bs, "big"). -/
def fromBytesBE (bs : List Nat) : Nat :=
  bs.foldl (fun a b => 256 * a + b) 0

/-- One archive record (line 130):
fname_len(2 bytes BE), fname, data_len(8 bytes BE), data. -/
def recordBytes (name data : List Nat) : List Nat :=
  toBytesBE 2 name.length ++ name ++ toBytesBE 8 data.length ++ data

/-- create_encrypted_container (lines 98-113), given the loaded or freshly
generated key bytes: encrypt the empty plaintext under a fresh 12-byte
nonce and write MAGIC, the nonce length byte, the nonce, the ciphertext.
Returns the container file bytes and the advanced entropy source. -/
def create_encrypted_container (A : AEAD) (key : List Nat) (e : Entropy) :
    List Nat × Entropy :=
  ((containerBytes (token_bytes 12 e).1 (A.encrypt key (token_bytes 12 e).1 [])),
   (token_bytes 12 e).2)

/-- add_file_to_container (lines 117-138), given the container file bytes,
the loaded key and the stored name and content of the upload: parse the
header (none on bad magic or truncated header), decrypt (none on
authentication failure), append the length-prefixed record (none when
a length prefix overflows its fixed width, where Python to_bytes raises
OverflowError), draw a fresh 12-byte nonce, re-encrypt the whole plaintext
and write the new container image.  Returns the new file bytes and the
advanced entropy source. -/
def add_file_to_container (A : AEAD) (key file name data : List Nat)
    (e : Entropy) : Option (List Nat × Entropy) :=
  match parseContainer file with
  | none => none
  | some (nonce, ct) =>
    match A.decrypt key nonce ct with
    | none => none
    | some plain =>
      if name.length < 2 ^ 16 ∧ data.length < 2 ^ 64 then
        some (containerBytes (token_bytes 12 e).1
                (A.encrypt key (token_bytes 12 e).1 (plain ++ recordBytes name data)),
              (token_bytes 12 e).2)
      else none

/-- Abbreviation for the container image holding plaintext plain under the
given key and nonce: the shape produced by create_encrypted_container and
add_file_to_container. -/
def mkContainer (A : AEAD) (key nonce plain : List Nat) : List Nat :=
  containerBytes nonce (A.encrypt key nonce plain)

/-- The concatenated record encoding of a sequence of (stored name, content)
pairs: the container plaintext after adding them in order to an empty
container. -/
def encodeAll : List (List Nat × List Nat) → List Nat
  | [] => []
  | (n, d) :: rest => recordBytes n d ++ encodeAll rest

/-- A sequence of add_file_to_container calls on the same container/key,
threading the container image and the entropy source. -/
def addAll (A : AEAD) (key : List Nat) (file : List Nat)
    (pairs : List (List Nat × List Nat)) (e : Entropy) :
    Option (List Nat × Entropy) :=
  match pairs with
  | [] => some (file, e)
  | (n, d) :: rest =>
    match add_file_to_container A key file n d e with
    | none => none
    | some fe => addAll A key fe.1 rest fe.2

/-- The record-parsing loop of extract_all and list_container (lines
173-179), fuelled: while bytes remain, read a 2-byte name length, the name,
an 8-byte data length, the data, each read truncating at the end of the
plaintext exactly as a Python slice does, and continue past the record.
Each iteration consumes at least one byte (the index advances by at least
10), so fuel = length of the remaining bytes always suffices; see
parseRecordsF_congr. -/
def parseRecordsF : Nat → List Nat → List (List Nat × List Nat)
  | 0, _ => []
  | _ + 1, [] => []
  | fuel + 1, b :: t =>
    let rem := b :: t
    let fnl := fromBytesBE (rem.take 2)
    let fn := (rem.drop 2).take fnl
    let dlen := fromBytesBE ((rem.drop (2 + fnl)).take 8)
    let data := (rem.drop (2 + fnl + 8)).take dlen
    (fn, data) :: parseRecordsF fuel (rem.drop (2 + fnl + 8 + dlen))

/-- The record-parsing loop of extract_all, at its natural fuel. -/
def parseRecords (rem : List Nat) : List (List Nat × List Nat) :=
  parseRecordsF rem.length rem

/-- extract_all (lines 161-179): parse the header, decrypt, parse every
record and write each record's data under its stored name into the output
directory, in order.  The result is the ordered list of (name, data)
writes performed (out-directory creation is elided). -/
def extract_all (A : AEAD) (key file : List Nat) :
    Option (List (List Nat × List Nat)) :=
  match parseContainer file with
  | none => none
  | some nct => (A.decrypt key nct.1 nct.2).map parseRecords

/-- The nonce recorded in a container image (its stored header nonce). -/
def containerNonce (file : List Nat) : Option (List Nat) :=
  (parseContainer file).map Prod.fst

/-- The 12-byte nonce values drawn by count consecutive encryption
operations starting at cursor c: consecutive, pairwise disjoint blocks of
the entropy stream. -/
def noncesUsed (s : Nat → Nat) (c : Nat) (count : Nat) : List (List Nat) :=
  (List.range count).map fun i => nonceAt s (c + 12 * i)

/-- The stored nonce of a container that started with header nonce nonce
and then underwent k add_file_to_container mutations drawing from entropy
source e: unchanged for k = 0, else the block drawn by the k-th mutation. -/
def finalNonce (nonce : List Nat) (e : Entropy) (k : Nat) : List Nat :=
  if k = 0 then nonce else nonceAt e.stream (e.pos + 12 * (k - 1))

/-! ## The container rewrite of add_file_to_container as a file-op trace -/

/-- One filesystem operation of the rewrite step. -/
inductive FileOp where
  | openTrunc (path : String)
  | write (path : String) (bytes : List Nat)
  | rename (src dst : String)
deriving DecidableEq

/-- Whether a file operation is a rename. -/
def FileOp.isRename : FileOp → Bool
  | .rename _ _ => true
  | _ => false

/-- The write sequence of add_file_to_container lines 134-138, transliterated:
open(container_path, "wb") truncates the container file in place, then the
magic, the nonce length byte, the nonce and the ciphertext are written
sequentially.  No temporary file and no rename is involved. -/
def addFileWriteOps (path : String) (nonce ct : List Nat) : List FileOp :=
  [FileOp.openTrunc path,
   FileOp.write path MAGIC,
   FileOp.write path [nonce.length],
   FileOp.write path nonce,
   FileOp.write path ct]

/-- Disk semantics of one file operation: a disk maps a path to the bytes of
the file there, none when absent. -/
def applyFileOp (disk : String → Option (List Nat)) :
    FileOp → (String → Option (List Nat))
  | .openTrunc p => fun q => if q = p then some [] else disk q
  | .write p bs => fun q => if q = p then some ((disk p).getD [] ++ bs) else disk q
  | .rename src dst =>
    fun q => if q = dst then disk src else if q = src then none else disk q

/-- Disk state after a prefix of the operations has been performed (a crash
or error mid-sequence leaves exactly such a state). -/
def runFileOps (disk : String → Option (List Nat)) (ops : List FileOp) :
    String → Option (List Nat) :=
  ops.foldl applyFileOp disk

/-- A disk holding a prior, non-empty container image, for the C5
counterexample. -/
def priorDisk : String → Option (List Nat) :=
  fun q => if q = "cont.bin" then some [1, 2, 3] else none

/-! ## Secure-erase primitive (secure_overwrite_and_delete, lines 185-207) -/

/-- One observable event of the wipe primitive.  Writes record the absolute
offset (each pass seeks to 0 and writes sequentially); flush stands for
f.flush() followed by os.fsync(); unlink removes the file. -/
inductive WipeEvent where
  | writeRandom (off : Nat) (bytes : List Nat)
  | writeZeros (off : Nat) (len : Nat)
  | flush
  | unlink
deriving DecidableEq

/-- Whether an event is a random-bytes write. -/
def WipeEvent.isRandomWrite : WipeEvent → Bool
  | .writeRandom _ _ => true
  | _ => false

/-- The chunk sizes of one overwrite pass over a file of rem bytes: Python
writes min(1024*1024, rem) bytes at a time until rem reaches 0 (lines
192-196 and 202-205).  Fuelled structurally; each chunk is at least one
byte, so fuel = rem suffices. -/
def chunkSizesF : Nat → Nat → List Nat
  | 0, _ => []
  | _ + 1, 0 => []
  | fuel + 1, rem + 1 =>
    min (1024 * 1024) (rem + 1) :: chunkSizesF fuel (rem + 1 - min (1024 * 1024) (rem + 1))

/-- The chunk sizes of one overwrite pass over a file of size bytes. -/
def chunkSizes (size : Nat) : List Nat := chunkSizesF size size

/-- The chunked random writes of one pass, starting at file offset off:
each chunk draws fresh bytes from the entropy source
(f.write(secrets.token_bytes(chunk)), line 195). -/
def randWriteEvents : List Nat → Nat → Entropy → List WipeEvent × Entropy
  | [], _, e => ([], e)
  | c :: cs, off, e =>
    let rest := randWriteEvents cs (off + c) (token_bytes c e).2
    (WipeEvent.writeRandom off (token_bytes c e).1 :: rest.1, rest.2)

/-- The chunked zero writes of the final pass, starting at offset off
(f.write(zero[:chunk]), line 204). -/
def zeroWriteEvents : List Nat → Nat → List WipeEvent
  | [], _ => []
  | c :: cs, off => WipeEvent.writeZeros off c :: zeroWriteEvents cs (off + c)

/-- The passes random overwrite rounds of secure_overwrite_and_delete (lines
190-197): each round seeks to 0, writes the whole file in chunks of fresh
random bytes, then flushes and fsyncs before the next round begins. -/
def randomPasses : Nat → Nat → Entropy → List WipeEvent × Entropy
  | 0, _, e => ([], e)
  | p + 1, size, e =>
    let pass := randWriteEvents (chunkSizes size) 0 e
    let rest := randomPasses p size pass.2
    (pass.1 ++ [WipeEvent.flush] ++ rest.1, rest.2)

/-- secure_overwrite_and_delete (lines 185-207): FileNotFoundError "keyfile
missing" when the path is absent; otherwise the trace of its effects on the
file of the given content: passes random overwrite rounds each ending in a
flush, one all-zero overwrite of the whole file, a flush, then unlink.
Returns the event trace and the advanced entropy source. -/
def secure_overwrite_and_delete (file : Option (List Nat)) (passes : Nat)
    (e : Entropy) : Except String (List WipeEvent × Entropy) :=
  match file with
  | none => Except.error "keyfile missing"
  | some content =>
    let rand := randomPasses passes content.length e
    Except.ok
      (rand.1 ++ (zeroWriteEvents (chunkSizes content.length) 0 ++ [WipeEvent.flush])
        ++ [WipeEvent.unlink], rand.2)

/-- Overwrite the bytes of c from offset off with bs (the file keeps its
size: every write of the primitive stays within the file). -/
def overwrite (c : List Nat) (off : Nat) (bs : List Nat) : List Nat :=
  c.take off ++ bs ++ c.drop (off + bs.length)

/-- Disk semantics of one wipe event on the key file. -/
def applyWipeEvent (file : Option (List Nat)) : WipeEvent → Option (List Nat)
  | .writeRandom off bs => file.map fun c => overwrite c off bs
  | .writeZeros off len => file.map fun c => overwrite c off (List.replicate len 0)
  | .flush => file
  | .unlink => none

/-- The key-file state after a trace of wipe events. -/
def runWipe (file : Option (List Nat)) (evs : List WipeEvent) : Option (List Nat) :=
  evs.foldl applyWipeEvent file

/-- Checks that evs is a sequence of random-byte writes laid out back to
back from offset off, and returns the offset after the last one: the shape
of one full-file random pass when the result is some size. -/
def seqRandomWrites : Nat → List WipeEvent → Option Nat
  | off, [] => some off
  | off, WipeEvent.writeRandom o bs :: rest =>
    if o = off then seqRandomWrites (off + bs.length) rest else none
  | _, _ => none

/-- Checks that evs is a sequence of zero writes laid out back to back from
offset off, and returns the offset after the last one. -/
def seqZeroWrites : Nat → List WipeEvent → Option Nat
  | off, [] => some off
  | off, WipeEvent.writeZeros o len :: rest =>
    if o = off then seqZeroWrites (off + len) rest else none
  | _, _ => none

/-- load_key (lines 95-96): Path.read_bytes raises FileNotFoundError when
the path is absent. -/
def load_key (file : Option (List Nat)) : Except String (List Nat) :=
  match file with
  | none => Except.error "NotFound"
  | some bs => Except.ok bs

/-! ## Certificate signer (lines 234-238) -/

/-- JSON string escaping as json.dumps performs it for the characters that
occur in certificates (quote and backslash; certificate fields are
printable ASCII). -/
def jsonEscapeChar (c : Char) : String :=
  if c = '"' then "\\\"" else if c = '\\' then "\\\\" else String.singleton c

/-- JSON escaping of a whole string. -/
def jsonEscape (s : String) : String :=
  String.join (s.toList.map jsonEscapeChar)

/-- A JSON string literal. -/
def jsonStr (s : String) : String :=
  "\"" ++ jsonEscape s ++ "\""

/-- json.dumps of a flat object with string values, with Python's default
separators (", " and ": ") and the keys in the order of the list: the
serialization of a dict preserving its insertion order, as
json.dumps(cert) produces on line 305. -/
def jsonDumps (r : List (String × String)) : String :=
  "\x7b" ++ String.intercalate ", " (r.map fun kv => jsonStr kv.1 ++ ": " ++ jsonStr kv.2) ++ "\x7d"

/-- Lexicographic order on code-point lists: the order Python uses to
compare strings when json.dumps sorts keys. -/
def codepointLe : List Nat → List Nat → Bool
  | [], _ => true
  | _ :: _, [] => false
  | x :: xs, y :: ys => if x < y then true else if y < x then false else codepointLe xs ys

/-- Python string comparison, by code points. -/
def strLe (a b : String) : Bool :=
  codepointLe (a.toList.map Char.toNat) (b.toList.map Char.toNat)

/-- Insertion step of sorting the key/value pairs by key. -/
def insertSortedKV (kv : String × String) :
    List (String × String) → List (String × String)
  | [] => [kv]
  | x :: xs => if strLe kv.1 x.1 then kv :: x :: xs else x :: insertSortedKV kv xs

/-- Sorting the key/value pairs by key: the effect of sort_keys=True in
json.dumps(payload, sort_keys=True) on line 236. -/
def sortKeys : List (String × String) → List (String × String)
  | [] => []
  | x :: xs => insertSortedKV x (sortKeys xs)

/-- A deterministic signature scheme: verification accepts exactly the byte
sequence that was signed.  RSA PKCS1v15 with SHA-256 (lines 235-237) is
deterministic and satisfies correct always and sound up to SHA-256
collisions. -/
structure SignatureScheme where
  sign : String → String
  verify : String → String → Bool
  correct : ∀ d, verify d (sign d) = true
  sound : ∀ d d2, verify d2 (sign d) = true → d2 = d

/-- A concrete signature scheme witnessing that SignatureScheme is
inhabited. -/
def eqScheme : SignatureScheme where
  sign := fun d => d
  verify := fun d s => s == d
  correct := fun d => beq_self_eq_true d
  sound := fun d d2 h => (eq_of_beq h).symm

/-- sign_certificate (lines 234-238): serialize the payload with
sort_keys=True and sign those exact bytes. -/
def sign_certificate (S : SignatureScheme) (payload : List (String × String)) :
    String :=
  S.sign (jsonDumps (sortKeys payload))

/-- The certificate record built by OSWipeJob.run (lines 293-300), in its
insertion order: job_id, os, target, action, status, timestamp. -/
def wipeCert (jobId osname target action timestamp : String) :
    List (String × String) :=
  [("job_id", jobId), ("os", osname), ("target", target), ("action", action),
   ("status", "success"), ("timestamp", timestamp)]

/-- A concrete certificate record, for evaluating the signer. -/
def certExample : List (String × String) :=
  wipeCert "abc123" "linux" "/dev/sdb" "luks_killslot" "2026-01-01T00:00:00Z"

/-! ## Destructive job engine (OSWipeJob, lines 244-317) -/

/-- An OSWipeJob record.  status, log, success and certificate are the
fields of the Python object; statusTrace additionally records every value
ever assigned to status, and commands every external command invoked, so
that the temporal claims can be stated. -/
structure OSWipeJob where
  status : String
  log : List String
  success : Bool
  certificate : Option String
  commands : List (List String)
  statusTrace : List String

/-- append_log (lines 255-259), with the timestamp prefix elided. -/
def OSWipeJob.append_log (j : OSWipeJob) (s : String) : OSWipeJob :=
  { j with log := j.log ++ [s] }

/-- An assignment to self.status, recorded in the trace. -/
def OSWipeJob.setStatus (j : OSWipeJob) (s : String) : OSWipeJob :=
  { j with status := s, statusTrace := j.statusTrace ++ [s] }

/-- The exceptions OSWipeJob.run distinguishes (lines 310-317). -/
inductive PyExc where
  | calledProcessError (msg : String)
  | exc (msg : String)
deriving DecidableEq

/-- subprocess.check_output: records the invoked command; raises
CalledProcessError when the external command exits non-zero (the cmdOk
oracle says which). -/
def runCmd (j : OSWipeJob) (cmd : List String) (cmdOk : Bool) :
    Except (OSWipeJob × PyExc) OSWipeJob :=
  let j2 := { j with commands := j.commands ++ [cmd] }
  if cmdOk then Except.ok j2
  else Except.error (j2, PyExc.calledProcessError "non-zero exit status")

/-- The windows manual-action guidance log entry (line 281). -/
def windowsGuidance : String :=
  "Windows destructive actions must be performed manually. See logs for guidance."

/-- The macos manual-action guidance log entry (line 284). -/
def macosGuidance : String :=
  "macOS actions must be performed via fdesetup/diskutil GUI or manual commands"

/-- The os/action dispatch of the try block (lines 265-287): linux actions
invoke an external command; windows and macos log guidance and raise
(manual-only policy); anything else raises "unsupported os". -/
def destructiveAction (j : OSWipeJob) (osname target action : String)
    (cmdOk : Bool) : Except (OSWipeJob × PyExc) OSWipeJob :=
  if osname = "linux" then
    if action = "luks_killslot" then
      let cmd := ["cryptsetup", "luksKillSlot", target, "0"]
      runCmd (j.append_log ("Running: " ++ String.intercalate " " cmd)) cmd cmdOk
    else if action = "zero_header" then
      let cmd := ["dd", "if=/dev/zero", "of=" ++ target, "bs=1M", "count=128"]
      runCmd (j.append_log ("Running: " ++ String.intercalate " " cmd)) cmd cmdOk
    else Except.error (j, PyExc.exc "unknown action")
  else if osname = "windows" then
    Except.error (j.append_log windowsGuidance,
      PyExc.exc "windows actions must be manual in this demo")
  else if osname = "macos" then
    Except.error (j.append_log macosGuidance,
      PyExc.exc "macos actions must be manual in demo")
  else Except.error (j, PyExc.exc "unsupported os")

/-- The success continuation of the try block (lines 289-309): log success,
set success and status "finished", then produce and sign the certificate
and write the payload and signature artifacts.  The signOk oracle says
whether that certificate step succeeds; when it raises, the state already
carries status "finished". -/
def certBlock (j : OSWipeJob) (jobId : String) (signOk : Bool) :
    Except (OSWipeJob × PyExc) OSWipeJob :=
  let j2 := ((j.append_log "Wipe command completed successfully").setStatus "finished")
  let j3 := { j2 with success := true }
  if signOk then
    Except.ok ({ j3 with certificate := some ("certs/" ++ jobId ++ ".json")
               }.append_log "Certificate generated")
  else Except.error (j3, PyExc.exc "certificate signing failed")

/-- The two except handlers (lines 310-317): log, set status "failed",
clear success. -/
def handleExc (j : OSWipeJob) : PyExc → OSWipeJob
  | PyExc.calledProcessError m =>
    { ((j.append_log ("Command failed: " ++ m)).setStatus "failed") with success := false }
  | PyExc.exc m =>
    { ((j.append_log ("Exception: " ++ m)).setStatus "failed") with success := false }

/-- OSWipeJob.run (lines 261-317): set status "running", log the job
parameters, run the destructive action and, on its success, the
certificate block; any exception from either is caught and converted to
status "failed". -/
def OSWipeJob.run (jobId osname target action : String) (cmdOk signOk : Bool) :
    OSWipeJob :=
  let j0 : OSWipeJob :=
    { status := "queued", log := [], success := false, certificate := none,
      commands := [], statusTrace := ["queued"] }
  let j1 := (j0.setStatus "running").append_log
    ("Starting OS wipe job " ++ jobId ++ " on " ++ osname ++ " target=" ++ target
      ++ " action=" ++ action)
  match destructiveAction j1 osname target action cmdOk with
  | Except.error je => handleExc je.1 je.2
  | Except.ok j2 =>
    match certBlock j2 jobId signOk with
    | Except.error je => handleExc je.1 je.2
    | Except.ok j3 => j3

/-- api_status (lines 407-412): a status query returns a snapshot of the
job's status, log and success flag (404 when the job id is unknown). -/
def api_status (job : Option OSWipeJob) : Option (String × List String × Bool) :=
  job.map fun j => (j.status, j.log, j.success)

/-- A 12-byte all-zero nonce, for concrete container images. -/
def zeroNonce : List Nat := List.replicate 12 0

/-- A container plaintext holding one record whose declared data length (5)
exceeds the single byte that remains: fname_len=1, fname="a",
data_len=5, data=[120] only. -/
def truncPlain : List Nat := [0, 1, 97, 0, 0, 0, 0, 0, 0, 0, 5, 120]

/-! ## Byte-encoding and container-parsing lemmas -/

theorem toBytesBE_length (k v : Nat) : (toBytesBE k v).length = k := by
  induction k generalizing v with
  | zero => rfl
  | succ k ih => simp [toBytesBE, ih]

theorem fromBytesBE_append (bs : List Nat) (b : Nat) :
    fromBytesBE (bs ++ [b]) = 256 * fromBytesBE bs + b := by
  simp [fromBytesBE, List.foldl_append]

theorem fromBytesBE_toBytesBE (k v : Nat) (h : v < 256 ^ k) :
    fromBytesBE (toBytesBE k v) = v := by
  induction k generalizing v with
  | zero =>
    have hv : v = 0 := by simpa using h
    simp [hv, toBytesBE, fromBytesBE]
  | succ k ih =>
    have h2 : v / 256 < 256 ^ k := by
      apply Nat.div_lt_of_lt_mul
      rw [pow_succ] at h
      omega
    calc fromBytesBE (toBytesBE (k + 1) v)
        = fromBytesBE (toBytesBE k (v / 256) ++ [v % 256]) := rfl
      _ = 256 * fromBytesBE (toBytesBE k (v / 256)) + v % 256 := fromBytesBE_append ..
      _ = 256 * (v / 256) + v % 256 := by rw [ih _ h2]
      _ = v := by omega

theorem recordBytes_length (n d : List Nat) :
    (recordBytes n d).length = 2 + n.length + 8 + d.length := by
  simp [recordBytes, toBytesBE_length]
  omega

theorem parseContainer_containerBytes (nonce ct : List Nat) :
    parseContainer (containerBytes nonce ct) = some (nonce, ct) := by
  have h : containerBytes nonce ct = MAGIC ++ (nonce.length :: (nonce ++ ct)) := by
    simp [containerBytes]
  rw [parseContainer, h, List.take_left, List.drop_left, if_pos rfl]
  simp [List.take_left, List.drop_left]

theorem parseRecordsF_nil (f : Nat) : parseRecordsF f [] = [] := by
  cases f <;> rfl

theorem parseRecordsF_congr (f : Nat) :
    ∀ (g : Nat) (rem : List Nat), rem.length ≤ f → rem.length ≤ g →
      parseRecordsF f rem = parseRecordsF g rem := by
  induction f with
  | zero =>
    intro g rem hf _
    have hrem : rem = [] := List.eq_nil_of_length_eq_zero (Nat.le_zero.mp hf)
    subst hrem
    rw [parseRecordsF_nil, parseRecordsF_nil]
  | succ f ih =>
    intro g rem hf hg
    cases rem with
    | nil => rw [parseRecordsF_nil, parseRecordsF_nil]
    | cons b t =>
      cases g with
      | zero => simp at hg
      | succ g =>
        simp only [parseRecordsF]
        congr 1
        apply ih
        · have := List.length_drop
            (2 + fromBytesBE ((b :: t).take 2) + 8
              + fromBytesBE (((b :: t).drop (2 + fromBytesBE ((b :: t).take 2))).take 8))
            (b :: t)
          simp only [List.length_cons] at this hf ⊢
          omega
        · have := List.length_drop
            (2 + fromBytesBE ((b :: t).take 2) + 8
              + fromBytesBE (((b :: t).drop (2 + fromBytesBE ((b :: t).take 2))).take 8))
            (b :: t)
          simp only [List.length_cons] at this hg ⊢
          omega

theorem parseRecords_ne_nil (rem : List Nat) (h : rem ≠ []) :
    parseRecords rem =
      ((rem.drop 2).take (fromBytesBE (rem.take 2)),
        (rem.drop (2 + fromBytesBE (rem.take 2) + 8)).take
          (fromBytesBE ((rem.drop (2 + fromBytesBE (rem.take 2))).take 8)))
      :: parseRecords (rem.drop (2 + fromBytesBE (rem.take 2) + 8
            + fromBytesBE ((rem.drop (2 + fromBytesBE (rem.take 2))).take 8))) := by
  cases rem with
  | nil => exact absurd rfl h
  | cons b t =>
    show parseRecordsF (t.length + 1) (b :: t) = _
    simp only [parseRecordsF]
    congr 1
    apply parseRecordsF_congr
    · have := List.length_drop
        (2 + fromBytesBE ((b :: t).take 2) + 8
          + fromBytesBE (((b :: t).drop (2 + fromBytesBE ((b :: t).take 2))).take 8))
        (b :: t)
      simp only [List.length_cons] at this ⊢
      omega
    · exact Nat.le_refl _

theorem parseRecords_record (n d rest : List Nat)
    (hn : n.length < 2 ^ 16) (hd : d.length < 2 ^ 64) :
    parseRecords (recordBytes n d ++ rest) = (n, d) :: parseRecords rest := by
  have hb2 : (toBytesBE 2 n.length).length = 2 := toBytesBE_length ..
  have hb8 : (toBytesBE 8 d.length).length = 8 := toBytesBE_length ..
  have hfrom2 : fromBytesBE (toBytesBE 2 n.length) = n.length :=
    fromBytesBE_toBytesBE 2 _ (by norm_num at hn ⊢; exact hn)
  have hfrom8 : fromBytesBE (toBytesBE 8 d.length) = d.length :=
    fromBytesBE_toBytesBE 8 _ (by norm_num at hd ⊢; exact hd)
  have hassoc : recordBytes n d ++ rest
      = toBytesBE 2 n.length ++ (n ++ (toBytesBE 8 d.length ++ (d ++ rest))) := by
    simp [recordBytes, List.append_assoc]
  have hne : recordBytes n d ++ rest ≠ [] := by
    rw [hassoc]
    intro hcon
    have := congrArg List.length hcon
    simp [hb2] at this
  have h1 : (recordBytes n d ++ rest).take 2 = toBytesBE 2 n.length := by
    rw [hassoc]; exact List.take_left' hb2
  have h3 : (recordBytes n d ++ rest).drop 2 = n ++ (toBytesBE 8 d.length ++ (d ++ rest)) := by
    rw [hassoc]; exact List.drop_left' hb2
  have h5 : (recordBytes n d ++ rest).drop (2 + n.length)
      = toBytesBE 8 d.length ++ (d ++ rest) := by
    rw [← List.drop_drop, h3, List.drop_left]
  have h8 : (recordBytes n d ++ rest).drop (2 + n.length + 8) = d ++ rest := by
    rw [← List.drop_drop, h5]; exact List.drop_left' hb8
  have h10 : (recordBytes n d ++ rest).drop (2 + n.length + 8 + d.length) = rest := by
    rw [← List.drop_drop, h8, List.drop_left]
  rw [parseRecords_ne_nil _ hne, h1, hfrom2, h3, List.take_left, h5,
    List.take_left' hb8, hfrom8, h8, List.take_left, h10]

theorem parseRecords_encodeAll (pairs : List (List Nat × List Nat))
    (hb : ∀ p ∈ pairs, p.1.length < 2 ^ 16 ∧ p.2.length < 2 ^ 64) :
    parseRecords (encodeAll pairs) = pairs := by
  induction pairs with
  | nil => rfl
  | cons p rest ih =>
    obtain ⟨n, d⟩ := p
    have hp := hb (n, d) (List.mem_cons_self ..)
    rw [encodeAll, parseRecords_record n d _ hp.1 hp.2,
      ih fun q hq => hb q (List.mem_cons_of_mem _ hq)]

theorem extract_all_mkContainer (A : AEAD) (key nonce plain : List Nat) :
    extract_all A key (mkContainer A key nonce plain) = some (parseRecords plain) := by
  rw [extract_all, mkContainer, parseContainer_containerBytes]
  simp [A.decrypt_encrypt]

theorem add_file_mkContainer (A : AEAD) (key nonce plain n d : List Nat) (e : Entropy)
    (hn : n.length < 2 ^ 16) (hd : d.length < 2 ^ 64) :
    add_file_to_container A key (mkContainer A key nonce plain) n d e =
      some (mkContainer A key (nonceAt e.stream e.pos) (plain ++ recordBytes n d),
        ⟨e.stream, e.pos + 12⟩) := by
  rw [add_file_to_container, mkContainer, parseContainer_containerBytes]
  simp [A.decrypt_encrypt, hn, hd, token_bytes, mkContainer, nonceAt]
  norm_num at hn hd
  exact ⟨hn, hd⟩

theorem addAll_spec (A : AEAD) (key : List Nat) (pairs : List (List Nat × List Nat)) :
    ∀ (nonce plain : List Nat) (e : Entropy),
      (∀ p ∈ pairs, p.1.length < 2 ^ 16 ∧ p.2.length < 2 ^ 64) →
      addAll A key (mkContainer A key nonce plain) pairs e =
        some (mkContainer A key (finalNonce nonce e pairs.length) (plain ++ encodeAll pairs),
          ⟨e.stream, e.pos + 12 * pairs.length⟩) := by
  induction pairs with
  | nil =>
    intro nonce plain e _
    simp [addAll, finalNonce, encodeAll]
  | cons p rest ih =>
    intro nonce plain e hb
    obtain ⟨n, d⟩ := p
    have hp := hb (n, d) (List.mem_cons_self ..)
    have hnonce : finalNonce (nonceAt e.stream e.pos) ⟨e.stream, e.pos + 12⟩ rest.length
        = finalNonce nonce e (rest.length + 1) := by
      rcases Nat.eq_zero_or_pos rest.length with hr | hr
      · simp [finalNonce, hr]
      · have h0 : rest.length ≠ 0 := by omega
        simp only [finalNonce, if_neg h0, if_neg (Nat.succ_ne_zero rest.length)]
        congr 1
        omega
    show (match add_file_to_container A key (mkContainer A key nonce plain) n d e with
      | none => none
      | some fe => addAll A key fe.1 rest fe.2) = _
    rw [add_file_mkContainer A key nonce plain n d e hp.1 hp.2]
    show addAll A key (mkContainer A key (nonceAt e.stream e.pos) (plain ++ recordBytes n d))
        rest ⟨e.stream, e.pos + 12⟩ = _
    rw [ih _ _ _ (fun q hq => hb q (List.mem_cons_of_mem _ hq)), hnonce, List.append_assoc,
      show e.pos + 12 + 12 * rest.length = e.pos + 12 * (rest.length + 1) from by ring]
    rfl

/-- Claim C2 (confirmed): for every sequence of (name, content) pairs added
to a freshly created container via add_file_to_container, a subsequent
extract_all performs, for every pair in the sequence and in their order,
a write of a file under that pair's stored name whose content equals the
pair's content byte for byte: the list of (name, data) writes it performs
is exactly the list of pairs.  The length hypotheses are the fixed widths
of the record length prefixes (Python int.to_bytes raises beyond them). -/
theorem container_roundtrip (A : AEAD) (key : List Nat)
    (pairs : List (List Nat × List Nat)) (e : Entropy)
    (hb : ∀ p ∈ pairs, p.1.length < 2 ^ 16 ∧ p.2.length < 2 ^ 64) :
    ∃ file e2,
      addAll A key (create_encrypted_container A key e).1 pairs
          (create_encrypted_container A key e).2 = some (file, e2)
      ∧ extract_all A key file = some pairs := by
  refine ⟨mkContainer A key
      (finalNonce (nonceAt e.stream e.pos) ⟨e.stream, e.pos + 12⟩ pairs.length)
      ([] ++ encodeAll pairs),
    ⟨e.stream, e.pos + 12 + 12 * pairs.length⟩, ?_, ?_⟩
  · exact addAll_spec A key pairs (nonceAt e.stream e.pos) [] ⟨e.stream, e.pos + 12⟩ hb
  · rw [extract_all_mkContainer, List.nil_append, parseRecords_encodeAll pairs hb]

/-- Witness for container_roundtrip at a concrete instance: one pair with
stored name "a" and content "hi", a concrete entropy stream, the trivial
cipher. -/
theorem container_roundtrip_witness :
    ∃ file e2,
      addAll idAEAD [5] (create_encrypted_container idAEAD [5] ⟨fun i => i % 256, 0⟩).1
          [([97], [104, 105])]
          (create_encrypted_container idAEAD [5] ⟨fun i => i % 256, 0⟩).2 = some (file, e2)
      ∧ extract_all idAEAD [5] file = some [([97], [104, 105])] :=
  container_roundtrip idAEAD [5] [([97], [104, 105])] ⟨fun i => i % 256, 0⟩ (by decide)

/-- Counterexample to claim C4: a container plaintext holding one record
whose declared data length (5) exceeds the remaining plaintext (1 byte).
The claim says extract_all must fail (CorruptRecord); instead extract_all
succeeds and writes the silently truncated data [120], because Python
slicing plain[idx:idx+dlen] truncates at the end of the plaintext. -/
theorem extract_all_overlong_succeeds :
    extract_all idAEAD [7] (containerBytes zeroNonce (idAEAD.encrypt [7] zeroNonce truncPlain))
      = some [([97], [120])] := by decide

/-- Claim C4 amended: extract_all does not fail on a record whose declared
length prefix exceeds the remaining plaintext; it silently truncates the
record's data to the bytes that remain and completes successfully, writing
the truncated data under the stored name. -/
theorem extract_all_overlong_truncates (A : AEAD) (key nonce name data : List Nat)
    (dlen : Nat) (hn : name.length < 2 ^ 16) (hd : data.length < dlen)
    (hdlen : dlen < 2 ^ 64) :
    extract_all A key (mkContainer A key nonce
        (toBytesBE 2 name.length ++ name ++ toBytesBE 8 dlen ++ data))
      = some [(name, data)] := by
  rw [extract_all_mkContainer]
  have hb2 : (toBytesBE 2 name.length).length = 2 := toBytesBE_length ..
  have hb8 : (toBytesBE 8 dlen).length = 8 := toBytesBE_length ..
  have hfrom2 : fromBytesBE (toBytesBE 2 name.length) = name.length :=
    fromBytesBE_toBytesBE 2 _ (by norm_num at hn ⊢; exact hn)
  have hfrom8 : fromBytesBE (toBytesBE 8 dlen) = dlen :=
    fromBytesBE_toBytesBE 8 _ (by norm_num at hdlen ⊢; exact hdlen)
  set rem := toBytesBE 2 name.length ++ name ++ toBytesBE 8 dlen ++ data with hrem
  have hassoc : rem = toBytesBE 2 name.length ++ (name ++ (toBytesBE 8 dlen ++ data)) := by
    simp [hrem, List.append_assoc]
  have hne : rem ≠ [] := by
    rw [hassoc]
    intro hcon
    have := congrArg List.length hcon
    simp [hb2] at this
  have h1 : rem.take 2 = toBytesBE 2 name.length := by
    rw [hassoc]; exact List.take_left' hb2
  have h3 : rem.drop 2 = name ++ (toBytesBE 8 dlen ++ data) := by
    rw [hassoc]; exact List.drop_left' hb2
  have h5 : rem.drop (2 + name.length) = toBytesBE 8 dlen ++ data := by
    rw [← List.drop_drop, h3, List.drop_left]
  have h8 : rem.drop (2 + name.length + 8) = data := by
    rw [← List.drop_drop, h5]; exact List.drop_left' hb8
  have hlen : rem.length = 2 + name.length + 8 + data.length := by
    simp [hrem, hb2, hb8]
    omega
  have h10 : rem.drop (2 + name.length + 8 + dlen) = [] := by
    apply List.drop_eq_nil_of_le
    omega
  rw [parseRecords_ne_nil rem hne, h1, hfrom2, h3, List.take_left, h5,
    List.take_left' hb8, hfrom8, h8, List.take_of_length_le (Nat.le_of_lt hd), h10]
  rfl

/-- Witness for extract_all_overlong_truncates at the concrete input of the
counterexample: name "a", available data [120], declared length 5. -/
theorem extract_all_overlong_truncates_witness :
    ([97] : List Nat).length < 2 ^ 16 ∧ ([120] : List Nat).length < 5 ∧ (5 : Nat) < 2 ^ 64
    ∧ extract_all idAEAD [7] (mkContainer idAEAD [7] zeroNonce
        (toBytesBE 2 ([97] : List Nat).length ++ [97] ++ toBytesBE 8 5 ++ [120]))
      = some [([97], [120])] :=
  ⟨by decide, by decide, by decide,
    extract_all_overlong_truncates idAEAD [7] zeroNonce [97] [120] 5
      (by decide) (by decide) (by decide)⟩

/-- Claim C7 (confirmed): every encryption operation on a container (the
creation and every add_file_to_container re-encryption) draws its nonce as
a fresh 12-byte draw from the cryptographic random source.  After the k-th
mutation the stored nonce is the 12-byte stream block at cursor offset
12k from the starting cursor, and the cursor has advanced past it, so no
operation ever re-reads entropy positions a previous nonce used; and as
long as the stream blocks at the used offsets are pairwise distinct (which
fresh cryptographic randomness provides except with negligible
probability), the nonce values used are pairwise distinct, never a reuse. -/
theorem fresh_nonces (A : AEAD) (key : List Nat)
    (pairs : List (List Nat × List Nat)) (e : Entropy)
    (hb : ∀ p ∈ pairs, p.1.length < 2 ^ 16 ∧ p.2.length < 2 ^ 64) :
    (∀ k, k ≤ pairs.length →
      ∃ file, addAll A key (create_encrypted_container A key e).1 (pairs.take k)
            (create_encrypted_container A key e).2
          = some (file, ⟨e.stream, e.pos + 12 * (k + 1)⟩)
        ∧ containerNonce file = some (nonceAt e.stream (e.pos + 12 * k)))
    ∧ ((∀ i j, nonceAt e.stream (e.pos + 12 * i) = nonceAt e.stream (e.pos + 12 * j) → i = j) →
        (noncesUsed e.stream e.pos (pairs.length + 1)).Pairwise fun a b => a ≠ b) := by
  constructor
  · intro k hk
    have hbk : ∀ p ∈ pairs.take k, p.1.length < 2 ^ 16 ∧ p.2.length < 2 ^ 64 :=
      fun p hp => hb p (List.mem_of_mem_take hp)
    have hlen : (pairs.take k).length = k := by
      simp [List.length_take]
      omega
    have hfin : finalNonce (nonceAt e.stream e.pos) ⟨e.stream, e.pos + 12⟩ k
        = nonceAt e.stream (e.pos + 12 * k) := by
      rcases Nat.eq_zero_or_pos k with h0 | h0
      · subst h0; simp [finalNonce]
      · have hne : k ≠ 0 := by omega
        simp only [finalNonce, if_neg hne]
        congr 1
        omega
    refine ⟨mkContainer A key (nonceAt e.stream (e.pos + 12 * k))
        ([] ++ encodeAll (pairs.take k)), ?_, ?_⟩
    · have h := addAll_spec A key (pairs.take k) (nonceAt e.stream e.pos) []
        ⟨e.stream, e.pos + 12⟩ hbk
      simp only [hlen, hfin] at h
      rw [show e.pos + 12 + 12 * k = e.pos + 12 * (k + 1) from by ring] at h
      exact h
    · rw [containerNonce, mkContainer, parseContainer_containerBytes]
      rfl
  · intro hinj
    simp only [noncesUsed, List.pairwise_map]
    exact (List.pairwise_lt_range _).imp
      fun hlt heq => absurd (hinj _ _ heq) (Nat.ne_of_lt hlt)

/-- Witness for fresh_nonces at a concrete instance: one pair, a concrete
entropy stream, the trivial cipher. -/
theorem fresh_nonces_witness :
    (∀ k, k ≤ ([([97], [98])] : List (List Nat × List Nat)).length →
      ∃ file, addAll idAEAD [5]
            (create_encrypted_container idAEAD [5] ⟨fun i => i % 256, 0⟩).1
            (([([97], [98])] : List (List Nat × List Nat)).take k)
            (create_encrypted_container idAEAD [5] ⟨fun i => i % 256, 0⟩).2
          = some (file, ⟨fun i => i % 256, 0 + 12 * (k + 1)⟩)
        ∧ containerNonce file = some (nonceAt (fun i => i % 256) (0 + 12 * k)))
    ∧ ((∀ i j, nonceAt (fun i => i % 256) (0 + 12 * i)
          = nonceAt (fun i => i % 256) (0 + 12 * j) → i = j) →
        (noncesUsed (fun i => i % 256) 0
            (([([97], [98])] : List (List Nat × List Nat)).length + 1)).Pairwise
          fun a b => a ≠ b) :=
  fresh_nonces idAEAD [5] [([97], [98])] ⟨fun i => i % 256, 0⟩ (by decide)

/-- Counterexample to claim C5: the rewrite sequence of
add_file_to_container contains no rename at all (so there is no
write-to-temp-then-rename), and a failure immediately after the truncating
open — before any byte is written — leaves the container empty on disk
instead of the prior bytes [1, 2, 3]: a failure of addFile does not leave
the prior on-disk container unchanged. -/
theorem addfile_rewrite_not_atomic :
    ((addFileWriteOps "cont.bin" zeroNonce [9]).all fun op => !op.isRename) = true
    ∧ runFileOps priorDisk ((addFileWriteOps "cont.bin" zeroNonce [9]).take 1) "cont.bin"
        = some []
    ∧ priorDisk "cont.bin" = some [1, 2, 3] := by
  refine ⟨by decide, by decide, by decide⟩

/-- Claim C5 amended: add_file_to_container rewrites the container file in
place — it opens the container path itself in truncating write mode and
writes magic, nonce length, nonce and ciphertext sequentially, with no
temporary file and no rename.  A completed sequence leaves the new
container image; a failure directly after the truncating open leaves the
file empty, destroying the prior bytes rather than preserving them. -/
theorem addfile_in_place_rewrite (path : String) (nonce ct : List Nat)
    (disk : String → Option (List Nat)) :
    ((addFileWriteOps path nonce ct).all fun op => !op.isRename) = true
    ∧ runFileOps disk ((addFileWriteOps path nonce ct).take 1) path = some []
    ∧ runFileOps disk (addFileWriteOps path nonce ct) path
        = some (containerBytes nonce ct) := by
  refine ⟨rfl, ?_, ?_⟩
  · simp [runFileOps, addFileWriteOps, applyFileOp]
  · simp [runFileOps, addFileWriteOps, applyFileOp, containerBytes]

/-- Claim C1 (code bug): for a destructive job whose external action exits
successfully but whose certificate-signing step then fails, OSWipeJob.run
ends in the plain terminal state "failed" with success cleared and no
certificate — exactly the outcome the claim says must never occur.  The
status trace shows the job had already reached "finished", so the
destructive action did succeed before the state was overwritten. -/
theorem signing_failure_mapped_to_failed :
    (OSWipeJob.run "job1" "linux" "/dev/sdb" "luks_killslot" true false).status = "failed"
    ∧ (OSWipeJob.run "job1" "linux" "/dev/sdb" "luks_killslot" true false).success = false
    ∧ (OSWipeJob.run "job1" "linux" "/dev/sdb" "luks_killslot" true false).certificate = none
    ∧ "finished" ∈ (OSWipeJob.run "job1" "linux" "/dev/sdb" "luks_killslot" true false).statusTrace := by
  decide

/-- Claim C6 (code bug): in the run of a job whose external action succeeds
and whose signing step fails, the sequence of states assigned to the job is
queued, running, finished, failed: the state leaves the terminal value
"finished", and a status query made after the run observes "failed" where
an earlier query could have observed "finished". -/
theorem terminal_state_not_stable :
    (OSWipeJob.run "job2" "linux" "/dev/sdc" "zero_header" true false).statusTrace
      = ["queued", "running", "finished", "failed"]
    ∧ api_status (some (OSWipeJob.run "job2" "linux" "/dev/sdc" "zero_header" true false))
      = some ("failed",
          (OSWipeJob.run "job2" "linux" "/dev/sdc" "zero_header" true false).log, false) := by
  decide

/-- Claim C9 (confirmed): for every job whose OS class is windows or macos,
regardless of the requested action and of both outcome oracles,
OSWipeJob.run invokes no external command, appends the manual-action
guidance entry of that OS to the job log, and ends in the terminal state
"failed". -/
theorem manual_os_policy (jobId target action : String) (cmdOk signOk : Bool)
    (osname : String) (h : osname = "windows" ∨ osname = "macos") :
    (OSWipeJob.run jobId osname target action cmdOk signOk).commands = []
    ∧ (OSWipeJob.run jobId osname target action cmdOk signOk).status = "failed"
    ∧ (if osname = "windows" then windowsGuidance else macosGuidance)
        ∈ (OSWipeJob.run jobId osname target action cmdOk signOk).log := by
  rcases h with h | h <;> subst h <;>
    exact ⟨rfl, rfl, by
      simp [OSWipeJob.run, destructiveAction, handleExc, OSWipeJob.append_log,
        OSWipeJob.setStatus]⟩

/-- Witness for manual_os_policy at a concrete windows job. -/
theorem manual_os_policy_witness :
    (("windows" : String) = "windows" ∨ ("windows" : String) = "macos")
    ∧ ((OSWipeJob.run "j9" "windows" "C:" "remove_protector" true true).commands = []
      ∧ (OSWipeJob.run "j9" "windows" "C:" "remove_protector" true true).status = "failed"
      ∧ (if ("windows" : String) = "windows" then windowsGuidance else macosGuidance)
          ∈ (OSWipeJob.run "j9" "windows" "C:" "remove_protector" true true).log) :=
  ⟨Or.inl rfl, manual_os_policy "j9" "C:" "remove_protector" true true "windows" (Or.inl rfl)⟩

/-- Claim C3 (code bug): sign_certificate does sign a canonical,
key-sorted serialization, but the payload artifact written beside the
signature is the insertion-order serialization json.dumps(cert): for the
certificate record OSWipeJob.run builds, the payload bytes differ from the
bytes the signature was produced over, so the payload file does not verify
under the sibling signature file. -/
theorem certificate_payload_signature_mismatch (S : SignatureScheme) :
    jsonDumps certExample ≠ jsonDumps (sortKeys certExample)
    ∧ S.verify (jsonDumps certExample) (sign_certificate S certExample) = false := by
  have hne : jsonDumps certExample ≠ jsonDumps (sortKeys certExample) := by decide
  refine ⟨hne, ?_⟩
  cases hv : S.verify (jsonDumps certExample) (sign_certificate S certExample)
  · rfl
  · exact absurd (S.sound _ _ hv) hne

/-! ## Secure-erase lemmas -/

theorem token_bytes_fst_length (n : Nat) (e : Entropy) :
    (token_bytes n e).1.length = n := by
  simp [token_bytes]

theorem chunkSizesF_sum (fuel : Nat) :
    ∀ rem, rem ≤ fuel → (chunkSizesF fuel rem).sum = rem := by
  induction fuel with
  | zero =>
    intro rem h
    have hrem : rem = 0 := by omega
    subst hrem
    rfl
  | succ f ih =>
    intro rem h
    cases rem with
    | zero => rfl
    | succ r =>
      show (min (1024 * 1024) (r + 1)
          :: chunkSizesF f (r + 1 - min (1024 * 1024) (r + 1))).sum = r + 1
      rw [List.sum_cons, ih _ (by omega)]
      omega

theorem chunkSizes_sum (size : Nat) : (chunkSizes size).sum = size :=
  chunkSizesF_sum size size (Nat.le_refl size)

theorem randWriteEvents_entropy (cs : List Nat) :
    ∀ (off : Nat) (e : Entropy),
      (randWriteEvents cs off e).2 = ⟨e.stream, e.pos + cs.sum⟩ := by
  induction cs with
  | nil =>
    intro off e
    cases e
    simp [randWriteEvents]
  | cons c cs ih =>
    intro off e
    simp only [randWriteEvents, ih, token_bytes, List.sum_cons]
    congr 1
    omega

theorem randWriteEvents_seq (cs : List Nat) :
    ∀ (off : Nat) (e : Entropy),
      seqRandomWrites off (randWriteEvents cs off e).1 = some (off + cs.sum) := by
  induction cs with
  | nil =>
    intro off e
    simp [randWriteEvents, seqRandomWrites]
  | cons c cs ih =>
    intro off e
    simp [randWriteEvents, seqRandomWrites, token_bytes_fst_length, ih, Nat.add_assoc]

theorem zeroWriteEvents_seq (cs : List Nat) :
    ∀ off, seqZeroWrites off (zeroWriteEvents cs off) = some (off + cs.sum) := by
  induction cs with
  | nil =>
    intro off
    simp [zeroWriteEvents, seqZeroWrites]
  | cons c cs ih =>
    intro off
    simp [zeroWriteEvents, seqZeroWrites, ih, Nat.add_assoc]

theorem zeroWriteEvents_no_random (cs : List Nat) :
    ∀ off, ((zeroWriteEvents cs off).all fun ev => !ev.isRandomWrite) = true := by
  induction cs with
  | nil => intro off; rfl
  | cons c cs ih =>
    intro off
    rw [zeroWriteEvents, List.all_cons, ih (off + c)]
    rfl

theorem randomPasses_spec (p : Nat) :
    ∀ (size : Nat) (e : Entropy),
      (randomPasses p size e).2 = ⟨e.stream, e.pos + p * size⟩
      ∧ ∃ segs : List (List WipeEvent),
          (randomPasses p size e).1 = segs.join
          ∧ segs.length = p
          ∧ ∀ seg ∈ segs, ∃ ws, seg = ws ++ [WipeEvent.flush]
              ∧ seqRandomWrites 0 ws = some size := by
  induction p with
  | zero =>
    intro size e
    refine ⟨by cases e; simp [randomPasses], [], by simp [randomPasses], rfl, by simp⟩
  | succ p ih =>
    intro size e
    have hent : (randWriteEvents (chunkSizes size) 0 e).2 = ⟨e.stream, e.pos + size⟩ := by
      rw [randWriteEvents_entropy, chunkSizes_sum]
    obtain ⟨hrec2, segs, hjoin, hlen, hsegs⟩ :=
      ih size (randWriteEvents (chunkSizes size) 0 e).2
    refine ⟨?_, ((randWriteEvents (chunkSizes size) 0 e).1 ++ [WipeEvent.flush]) :: segs,
      ?_, ?_, ?_⟩
    · show (randomPasses p size (randWriteEvents (chunkSizes size) 0 e).2).2 = _
      rw [hrec2, hent]
      show Entropy.mk e.stream (e.pos + size + p * size) = _
      congr 1
      ring
    · show (randWriteEvents (chunkSizes size) 0 e).1 ++ [WipeEvent.flush]
          ++ (randomPasses p size (randWriteEvents (chunkSizes size) 0 e).2).1 = _
      rw [hjoin, List.join]
      simp [List.append_assoc]
    · simp [hlen]
    · intro seg hseg
      rcases List.mem_cons.mp hseg with h | h
      · refine ⟨(randWriteEvents (chunkSizes size) 0 e).1, h, ?_⟩
        rw [randWriteEvents_seq, chunkSizes_sum, Nat.zero_add]
      · exact hsegs seg h

/-- Claim C8 (confirmed): secure_overwrite_and_delete fails with NotFound
when the path is absent; otherwise it performs exactly passes full-file
overwrite rounds of fresh random bytes — each one a run of sequential
writes covering bytes 0 through size, closed by a flush to stable storage
before the next round begins — then one all-zero overwrite of the whole
file, a flush, and the removal of the file, consuming passes times size
fresh random bytes in total; afterwards the path no longer exists and a
subsequent load_key on it fails with NotFound. -/
theorem secure_wipe_spec (content : List Nat) (passes : Nat) (e : Entropy) :
    secure_overwrite_and_delete none passes e = Except.error "keyfile missing"
    ∧ ∃ evs,
        secure_overwrite_and_delete (some content) passes e
          = Except.ok (evs, ⟨e.stream, e.pos + passes * content.length⟩)
        ∧ (∃ (segs : List (List WipeEvent)) (zws : List WipeEvent),
            evs = segs.join ++ (zws ++ [WipeEvent.flush]) ++ [WipeEvent.unlink]
            ∧ segs.length = passes
            ∧ (∀ seg ∈ segs, ∃ ws, seg = ws ++ [WipeEvent.flush]
                ∧ seqRandomWrites 0 ws = some content.length)
            ∧ seqZeroWrites 0 zws = some content.length)
        ∧ runWipe (some content) evs = none
        ∧ load_key (runWipe (some content) evs) = Except.error "NotFound" := by
  obtain ⟨hent, segs, hjoin, hlen, hsegs⟩ := randomPasses_spec passes content.length e
  have hevs : secure_overwrite_and_delete (some content) passes e
      = Except.ok (segs.join
          ++ (zeroWriteEvents (chunkSizes content.length) 0 ++ [WipeEvent.flush])
          ++ [WipeEvent.unlink], ⟨e.stream, e.pos + passes * content.length⟩) := by
    show Except.ok ((randomPasses passes content.length e).1
        ++ (zeroWriteEvents (chunkSizes content.length) 0 ++ [WipeEvent.flush])
        ++ [WipeEvent.unlink], (randomPasses passes content.length e).2) = _
    rw [hent, hjoin]
  refine ⟨rfl, segs.join
      ++ (zeroWriteEvents (chunkSizes content.length) 0 ++ [WipeEvent.flush])
      ++ [WipeEvent.unlink], hevs,
    ⟨segs, zeroWriteEvents (chunkSizes content.length) 0, rfl, hlen, hsegs, ?_⟩, ?_, ?_⟩
  · rw [zeroWriteEvents_seq, chunkSizes_sum, Nat.zero_add]
  · simp [runWipe, List.foldl_append, applyWipeEvent]
  · simp [load_key, runWipe, List.foldl_append, applyWipeEvent]

/-- Claim C10 (confirmed): with passes = 0 the random-overwrite loop of
secure_overwrite_and_delete is skipped entirely — the trace holds no
random write and the entropy source is returned untouched — yet the file
is still fully overwritten with zeros (sequential zero writes covering
bytes 0 through size), flushed, and removed, so the path no longer exists
afterwards. -/
theorem secure_wipe_zero_passes (content : List Nat) (e : Entropy) :
    secure_overwrite_and_delete (some content) 0 e
      = Except.ok ((zeroWriteEvents (chunkSizes content.length) 0 ++ [WipeEvent.flush])
          ++ [WipeEvent.unlink], e)
    ∧ seqZeroWrites 0 (zeroWriteEvents (chunkSizes content.length) 0)
        = some content.length
    ∧ (((zeroWriteEvents (chunkSizes content.length) 0 ++ [WipeEvent.flush])
          ++ [WipeEvent.unlink]).all fun ev => !ev.isRandomWrite) = true
    ∧ runWipe (some content)
        ((zeroWriteEvents (chunkSizes content.length) 0 ++ [WipeEvent.flush])
          ++ [WipeEvent.unlink]) = none := by
  refine ⟨rfl, ?_, ?_, ?_⟩
  · rw [zeroWriteEvents_seq, chunkSizes_sum, Nat.zero_add]
  · rw [List.all_append, List.all_append,
      zeroWriteEvents_no_random (chunkSizes content.length) 0]
    rfl
  · simp [runWipe, List.foldl_append, applyWipeEvent]
